import Mathlib

/-!
Verification of the rustretro libretro frontend pipeline: the RGB565 to
XRGB8888 pixel converter, the video refresh sink, the frame scaler and
presenter blit, the audio sample batch callback and the input state
callback, embedded shallowly from src/video.rs, src/audio.rs and
src/input.rs. Machine integers are modelled as Nat; u8 and u32 values are
tracked by explicit bounds or by explicit reduction modulo 2 ^ 32 where the
source performs a wrapping cast.
-/

/-- Per-pixel body of the conversion loop in video.rs lines 79 to 95:
decode one RGB565 pixel from its high byte and low byte, widen each channel
by replicating high bits into the vacated low bits, and pack the result as
XRGB8888. The source combines the two green fragments with + (line 85); all
other combining uses bitwise or. All intermediate u8 values stay below 256,
so plain Nat arithmetic is an exact model. -/
def rgb565_pixel_to_xrgb8888 (first_byte second_byte : Nat) : Nat :=
  let red := (first_byte &&& 0xF8) >>> 3
  let green := ((first_byte &&& 0x07) <<< 3) + ((second_byte &&& 0xE0) >>> 5)
  let blue := second_byte &&& 0x1F
  let red8 := (red <<< 3) ||| (red >>> 2)
  let green8 := (green <<< 2) ||| (green >>> 3)
  let blue8 := (blue <<< 3) ||| (blue >>> 2)
  ((red8 <<< 16) ||| (green8 <<< 8)) ||| blue8

/-- Embedding of convert_pixel_array_from_rgb565_to_xrgb8888 (video.rs
lines 66 to 99). The assert_eq on an odd input length is modelled by
returning none; on an even length the function returns one converted
32-bit value per pair of input bytes. -/
def convert_pixel_array_from_rgb565_to_xrgb8888 (color_array : List Nat) :
    Option (List Nat) :=
  let bytes_per_pixel := 2
  if color_array.length % bytes_per_pixel = 0 then
    let num_pixels := color_array.length / bytes_per_pixel
    some ((List.range num_pixels).map (fun i =>
      rgb565_pixel_to_xrgb8888
        (color_array.getD (bytes_per_pixel * i) 0)
        (color_array.getD (bytes_per_pixel * i + 1) 0)))
  else
    none

/-- Disjoint bitwise or is addition: if a is a multiple of 2 ^ k and b lies
below 2 ^ k then a ||| b = a + b. -/
theorem lor_eq_add_of_dvd_of_lt {a b k : Nat} (hd : 2 ^ k ∣ a)
    (hb : b < 2 ^ k) : a ||| b = a + b := by
  obtain ⟨c, hc⟩ := hd
  subst hc
  apply Nat.eq_of_testBit_eq
  intro j
  have hmul : ∀ i, Nat.testBit (2 ^ k * c) i =
      if i < k then false else c.testBit (i - k) := by
    intro i
    have h0 : (0 : Nat) < 2 ^ k := Nat.two_pow_pos k
    have h := Nat.testBit_mul_pow_two_add c h0 i
    simpa using h
  rw [Nat.testBit_lor, Nat.testBit_mul_pow_two_add c hb j, hmul j]
  rcases Nat.lt_or_ge j k with hj | hj
  · simp [hj]
  · have hbj : b.testBit j = false :=
      Nat.testBit_eq_false_of_lt
        (lt_of_lt_of_le hb (Nat.pow_le_pow_right (by norm_num) hj))
    simp [Nat.not_lt.mpr hj, hbj]

/-- Right shift distributes over bitwise or. -/
theorem shiftRight_lor_distrib (a b k : Nat) :
    (a ||| b) >>> k = (a >>> k) ||| (b >>> k) := by
  apply Nat.eq_of_testBit_eq
  intro j
  simp [Nat.testBit_shiftRight, Nat.testBit_lor]

/-- The masked and shifted channel extractions are bounded by their field
widths, so the green fragments of the RGB565 decoder are disjoint and the
bitwise or in the specification formula coincides with the + found in the
source. -/
theorem green_fragments_lor_eq_add (b0 b1 : Nat) :
    ((b0 &&& 0x07) <<< 3) ||| ((b1 &&& 0xE0) >>> 5) =
      ((b0 &&& 0x07) <<< 3) + ((b1 &&& 0xE0) >>> 5) := by
  apply lor_eq_add_of_dvd_of_lt
  · rw [Nat.shiftLeft_eq]
    exact Dvd.intro_left _ rfl
  · rw [Nat.shiftRight_eq_div_pow]
    calc (b1 &&& 0xE0) / 2 ^ 5 ≤ 0xE0 / 2 ^ 5 :=
          Nat.div_le_div_right (Nat.and_le_right)
      _ < 2 ^ 3 := by norm_num

/-- Channel extractions of the RGB565 decoder fit their field widths: red
and blue are 5 bit values and green is a 6 bit value. -/
theorem rgb565_channels_lt (b0 b1 : Nat) :
    (b0 &&& 0xF8) >>> 3 < 32 ∧
    ((b0 &&& 0x07) <<< 3) + ((b1 &&& 0xE0) >>> 5) < 64 ∧
    b1 &&& 0x1F < 32 := by
  refine ⟨?_, ?_, ?_⟩
  · rw [Nat.shiftRight_eq_div_pow]
    have h : (b0 &&& 0xF8) / 2 ^ 3 ≤ 0xF8 / 2 ^ 3 :=
      Nat.div_le_div_right Nat.and_le_right
    omega
  · have ha : b0 &&& 0x07 ≤ 7 := Nat.and_le_right
    rw [Nat.shiftLeft_eq, Nat.shiftRight_eq_div_pow]
    have hb : (b1 &&& 0xE0) / 2 ^ 5 ≤ 0xE0 / 2 ^ 5 :=
      Nat.div_le_div_right Nat.and_le_right
    omega
  · exact lt_of_le_of_lt Nat.and_le_right (by norm_num)

/-- Every converted pixel is below 2 ^ 24, hence its top byte is zero. -/
theorem rgb565_pixel_to_xrgb8888_lt (b0 b1 : Nat) :
    rgb565_pixel_to_xrgb8888 b0 b1 < 2 ^ 24 := by
  obtain ⟨hr, hg, hb⟩ := rgb565_channels_lt b0 b1
  simp only [rgb565_pixel_to_xrgb8888]
  have h1 : (((b0 &&& 0xF8) >>> 3) <<< 3) ||| (((b0 &&& 0xF8) >>> 3) >>> 2)
      < 2 ^ 8 := by
    apply Nat.or_lt_two_pow
    · rw [Nat.shiftLeft_eq]; omega
    · rw [Nat.shiftRight_eq_div_pow]; omega
  have h2 : ((((b0 &&& 0x07) <<< 3) + ((b1 &&& 0xE0) >>> 5)) <<< 2) |||
      ((((b0 &&& 0x07) <<< 3) + ((b1 &&& 0xE0) >>> 5)) >>> 3) < 2 ^ 8 := by
    apply Nat.or_lt_two_pow
    · rw [Nat.shiftLeft_eq]; omega
    · rw [Nat.shiftRight_eq_div_pow]; omega
  have h3 : ((b1 &&& 0x1F) <<< 3) ||| ((b1 &&& 0x1F) >>> 2) < 2 ^ 8 := by
    apply Nat.or_lt_two_pow
    · rw [Nat.shiftLeft_eq]; omega
    · rw [Nat.shiftRight_eq_div_pow]; omega
  apply Nat.or_lt_two_pow
  · apply Nat.or_lt_two_pow
    · rw [Nat.shiftLeft_eq]; omega
    · rw [Nat.shiftLeft_eq]; omega
  · omega

/-- The per-pixel conversion of the source equals the packed formula of the
specification, in which the green fragments are combined with bitwise or
instead of the + used by the source. -/
theorem rgb565_pixel_spec_formula (b0 b1 : Nat) :
    rgb565_pixel_to_xrgb8888 b0 b1 =
      ((((((b0 &&& 0xF8) >>> 3) <<< 3) ||| (((b0 &&& 0xF8) >>> 3) >>> 2))
          <<< 16) |||
        ((((((b0 &&& 0x07) <<< 3) ||| ((b1 &&& 0xE0) >>> 5)) <<< 2) |||
          ((((b0 &&& 0x07) <<< 3) ||| ((b1 &&& 0xE0) >>> 5)) >>> 3)) <<< 8))
      ||| (((b1 &&& 0x1F) <<< 3) ||| ((b1 &&& 0x1F) >>> 2)) := by
  simp only [rgb565_pixel_to_xrgb8888, green_fragments_lor_eq_add]

/-- C1: for every input byte buffer whose length is a multiple of 2, the
converter returns one 32 bit value per input pixel; for pixel i with high
byte b0 and low byte b1 the output is the packed value
(red8 shifted 16) or (green8 shifted 8) or blue8 obtained from the 5-6-5
decode and the high bit replication, and the top byte of every output
value is zero. -/
theorem C1_pixel_converter_output (l : List Nat) (h2 : l.length % 2 = 0) :
    ∃ out, convert_pixel_array_from_rgb565_to_xrgb8888 l = some out ∧
      out.length = l.length / 2 ∧
      ∀ i, i < l.length / 2 →
        ∀ b0 b1 red5 green6 blue5 red8 green8 blue8 : Nat,
          b0 = l.getD (2 * i) 0 →
          b1 = l.getD (2 * i + 1) 0 →
          red5 = (b0 &&& 0xF8) >>> 3 →
          green6 = ((b0 &&& 0x07) <<< 3) ||| ((b1 &&& 0xE0) >>> 5) →
          blue5 = b1 &&& 0x1F →
          red8 = (red5 <<< 3) ||| (red5 >>> 2) →
          green8 = (green6 <<< 2) ||| (green6 >>> 3) →
          blue8 = (blue5 <<< 3) ||| (blue5 >>> 2) →
          out.getD i 0 = ((red8 <<< 16) ||| (green8 <<< 8)) ||| blue8 ∧
            out.getD i 0 >>> 24 = 0 := by
  simp only [convert_pixel_array_from_rgb565_to_xrgb8888]
  rw [if_pos h2]
  refine ⟨_, rfl, by simp, ?_⟩
  intro i hi b0 b1 red5 green6 blue5 red8 green8 blue8 hb0 hb1 h3 h4 h5 h6
    h7 h8
  subst hb0 hb1 h3 h4 h5 h6 h7 h8
  have hx : (List.range (l.length / 2))[i]? = some i := List.getElem?_range hi
  have hget : List.getD ((List.range (l.length / 2)).map (fun i =>
      rgb565_pixel_to_xrgb8888 (l.getD (2 * i) 0) (l.getD (2 * i + 1) 0)))
      i 0 =
      rgb565_pixel_to_xrgb8888 (l.getD (2 * i) 0) (l.getD (2 * i + 1) 0) := by
    simp [List.getD_eq_getElem?_getD, List.getElem?_map, hx]
  rw [hget]
  constructor
  · exact rgb565_pixel_spec_formula (l.getD (2 * i) 0) (l.getD (2 * i + 1) 0)
  · rw [Nat.shiftRight_eq_div_pow]
    exact Nat.div_eq_of_lt
      (rgb565_pixel_to_xrgb8888_lt (l.getD (2 * i) 0) (l.getD (2 * i + 1) 0))

/-- Witness for C1 at the concrete input buffer [248, 0]. -/
theorem C1_pixel_converter_output_witness :
    ([(248 : Nat), 0].length % 2 = 0) ∧
      ∃ out, convert_pixel_array_from_rgb565_to_xrgb8888 [248, 0] = some out ∧
        out.length = [(248 : Nat), 0].length / 2 ∧
        ∀ i, i < [(248 : Nat), 0].length / 2 →
          ∀ b0 b1 red5 green6 blue5 red8 green8 blue8 : Nat,
            b0 = [(248 : Nat), 0].getD (2 * i) 0 →
            b1 = [(248 : Nat), 0].getD (2 * i + 1) 0 →
            red5 = (b0 &&& 0xF8) >>> 3 →
            green6 = ((b0 &&& 0x07) <<< 3) ||| ((b1 &&& 0xE0) >>> 5) →
            blue5 = b1 &&& 0x1F →
            red8 = (red5 <<< 3) ||| (red5 >>> 2) →
            green8 = (green6 <<< 2) ||| (green6 >>> 3) →
            blue8 = (blue5 <<< 3) ||| (blue5 >>> 2) →
            out.getD i 0 = ((red8 <<< 16) ||| (green8 <<< 8)) ||| blue8 ∧
              out.getD i 0 >>> 24 = 0 :=
  ⟨by decide, C1_pixel_converter_output [248, 0] (by decide)⟩

/-- C8: an input whose length is not a multiple of 2 trips the assert,
modelled as returning none, and an input of even length never trips it and
the function returns normally. -/
theorem C8_assert_on_odd_length (l : List Nat) :
    (l.length % 2 ≠ 0 → convert_pixel_array_from_rgb565_to_xrgb8888 l = none)
    ∧ (l.length % 2 = 0 →
      (convert_pixel_array_from_rgb565_to_xrgb8888 l).isSome = true) := by
  constructor
  · intro h
    simp only [convert_pixel_array_from_rgb565_to_xrgb8888]
    rw [if_neg h]
  · intro h
    simp only [convert_pixel_array_from_rgb565_to_xrgb8888]
    rw [if_pos h]
    rfl

/-- Witness for C8 at the concrete inputs [1] (odd length) and [2, 3]
(even length). -/
theorem C8_assert_on_odd_length_witness :
    (([(1 : Nat)].length % 2 ≠ 0) ∧
      convert_pixel_array_from_rgb565_to_xrgb8888 [1] = none) ∧
    (([(2 : Nat), 3].length % 2 = 0) ∧
      (convert_pixel_array_from_rgb565_to_xrgb8888 [2, 3]).isSome = true) :=
  ⟨⟨by decide, (C8_assert_on_odd_length [1]).1 (by decide)⟩,
   ⟨by decide, (C8_assert_on_odd_length [2, 3]).2 (by decide)⟩⟩

/-- Widening of a 5 bit channel: shifting left by 3 and replicating the top
3 bits is exact addition since the fragments are disjoint. -/
theorem widen5_lor_eq_add {v : Nat} (hv : v < 32) :
    (v <<< 3) ||| (v >>> 2) = 8 * v + v / 4 := by
  have hdvd : 2 ^ 3 ∣ v <<< 3 := by
    rw [Nat.shiftLeft_eq]
    exact Dvd.intro_left _ rfl
  have hlt : v >>> 2 < 2 ^ 3 := by
    rw [Nat.shiftRight_eq_div_pow]
    have e2 : (2 : Nat) ^ 2 = 4 := by norm_num
    have e3 : (2 : Nat) ^ 3 = 8 := by norm_num
    rw [e2, e3]
    omega
  rw [lor_eq_add_of_dvd_of_lt hdvd hlt, Nat.shiftLeft_eq,
    Nat.shiftRight_eq_div_pow]
  have e2 : (2 : Nat) ^ 2 = 4 := by norm_num
  have e3 : (2 : Nat) ^ 3 = 8 := by norm_num
  rw [e2, e3]
  omega

/-- Packing three bytes with shifts and bitwise or is plain positional
arithmetic. -/
theorem pack_lor_eq_add {R G B : Nat} (hR : R < 256) (hG : G < 256)
    (hB : B < 256) :
    ((R <<< 16) ||| (G <<< 8)) ||| B = R * 65536 + G * 256 + B := by
  have e8 : (2 : Nat) ^ 8 = 256 := by norm_num
  have e16 : (2 : Nat) ^ 16 = 65536 := by norm_num
  have h1 : (R <<< 16) ||| (G <<< 8) = R <<< 16 + G <<< 8 := by
    have hd : 2 ^ 16 ∣ R <<< 16 := by
      rw [Nat.shiftLeft_eq]
      exact Dvd.intro_left _ rfl
    have hlt : G <<< 8 < 2 ^ 16 := by
      rw [Nat.shiftLeft_eq, e8, e16]
      omega
    exact lor_eq_add_of_dvd_of_lt hd hlt
  rw [h1]
  have hd2 : 2 ^ 8 ∣ R <<< 16 + G <<< 8 := by
    rw [Nat.shiftLeft_eq, Nat.shiftLeft_eq]
    apply dvd_add
    · exact Dvd.dvd.mul_left (by norm_num : (2 : Nat) ^ 8 ∣ 2 ^ 16) R
    · exact Dvd.intro_left _ rfl
  have hlt2 : B < 2 ^ 8 := by rw [e8]; exact hB
  rw [lor_eq_add_of_dvd_of_lt hd2 hlt2, Nat.shiftLeft_eq, Nat.shiftLeft_eq,
    e8, e16]

/-- Byte extraction from a packed 24 bit value by shift and mask. -/
theorem pack_bytes_extract {R G B : Nat} (hR : R < 256) (hG : G < 256)
    (hB : B < 256) :
    ((R * 65536 + G * 256 + B) >>> 16) &&& 0xFF = R ∧
    ((R * 65536 + G * 256 + B) >>> 8) &&& 0xFF = G ∧
    (R * 65536 + G * 256 + B) &&& 0xFF = B := by
  have h255 : (0xFF : Nat) = 2 ^ 8 - 1 := by norm_num
  refine ⟨?_, ?_, ?_⟩
  · rw [Nat.shiftRight_eq_div_pow, h255, Nat.and_pow_two_sub_one_eq_mod]
    norm_num
    omega
  · rw [Nat.shiftRight_eq_div_pow, h255, Nat.and_pow_two_sub_one_eq_mod]
    norm_num
    omega
  · rw [h255, Nat.and_pow_two_sub_one_eq_mod]
    norm_num
    omega

/-- Counterexample to C2: for input bytes 0x04 0x00 the decoded 565 green
value is 32, but converting the pixel and truncating the green byte back to
its top 6 bits yields 33, so the claimed round trip is not exact. -/
theorem C2_roundtrip_counterexample :
    ((rgb565_pixel_to_xrgb8888 0x04 0x00 >>> 8) &&& 0xFF) >>> 2 ≠
      ((0x04 &&& 0x07) <<< 3) ||| ((0x00 &&& 0xE0) >>> 5) := by decide

/-- C2 amended: decoding then re-encoding by truncating the replicated low
bits recovers red5 and blue5 exactly for every input byte pair; the green
channel re-encodes to green6 ||| (green6 >>> 5), which equals green6
whenever green6 < 32 (but equals green6 + 1 when green6 is at least 32 and
even); the particular input bytes 0xF8 0x00 produce 0xFF0000. -/
theorem C2_roundtrip_amended (b0 b1 out red5 green6 blue5 : Nat)
    (hout : out = rgb565_pixel_to_xrgb8888 b0 b1)
    (hred : red5 = (b0 &&& 0xF8) >>> 3)
    (hgreen : green6 = ((b0 &&& 0x07) <<< 3) ||| ((b1 &&& 0xE0) >>> 5))
    (hblue : blue5 = b1 &&& 0x1F) :
    ((out >>> 16) &&& 0xFF) >>> 3 = red5 ∧
    (out &&& 0xFF) >>> 3 = blue5 ∧
    ((out >>> 8) &&& 0xFF) >>> 2 = green6 ||| (green6 >>> 5) ∧
    (green6 < 32 → ((out >>> 8) &&& 0xFF) >>> 2 = green6) ∧
    rgb565_pixel_to_xrgb8888 0xF8 0x00 = 0xFF0000 := by
  obtain ⟨hr, hg, hb⟩ := rgb565_channels_lt b0 b1
  have hGor := green_fragments_lor_eq_add b0 b1
  subst hout hred hgreen hblue
  rw [hGor]
  simp only [rgb565_pixel_to_xrgb8888]
  set r := (b0 &&& 0xF8) >>> 3
  set g := ((b0 &&& 0x07) <<< 3) + ((b1 &&& 0xE0) >>> 5)
  set bl := b1 &&& 0x1F
  have e2 : (2 : Nat) ^ 2 = 4 := by norm_num
  have e3 : (2 : Nat) ^ 3 = 8 := by norm_num
  have e5 : (2 : Nat) ^ 5 = 32 := by norm_num
  have e8 : (2 : Nat) ^ 8 = 256 := by norm_num
  have hR8 := widen5_lor_eq_add hr
  have hB8 := widen5_lor_eq_add hb
  rw [hR8, hB8]
  have hR8lt : 8 * r + r / 4 < 256 := by omega
  have hB8lt : 8 * bl + bl / 4 < 256 := by omega
  have hG8lt : ((g <<< 2) ||| (g >>> 3)) < 256 := by
    have h1 : g <<< 2 < 2 ^ 8 := by
      rw [Nat.shiftLeft_eq, e2, e8]
      omega
    have h2 : g >>> 3 < 2 ^ 8 := by
      rw [Nat.shiftRight_eq_div_pow, e3, e8]
      omega
    have h3 := Nat.or_lt_two_pow h1 h2
    rw [e8] at h3
    exact h3
  rw [pack_lor_eq_add hR8lt hG8lt hB8lt]
  obtain ⟨eR, eG, eB⟩ := pack_bytes_extract hR8lt hG8lt hB8lt
  have hGreenByte : (((8 * r + r / 4) * 65536 + ((g <<< 2) ||| (g >>> 3)) *
      256 + (8 * bl + bl / 4)) >>> 8 &&& 0xFF) >>> 2 = g ||| (g >>> 5) := by
    rw [eG, shiftRight_lor_distrib]
    have c1 : (g <<< 2) >>> 2 = g := by
      rw [Nat.shiftLeft_eq, Nat.shiftRight_eq_div_pow]
      exact Nat.mul_div_cancel _ (Nat.two_pow_pos 2)
    have c2 : (g >>> 3) >>> 2 = g >>> 5 := by
      rw [← Nat.shiftRight_add]
    rw [c1, c2]
  refine ⟨?_, ?_, hGreenByte, ?_, by decide⟩
  · rw [eR, Nat.shiftRight_eq_div_pow, e3]
    omega
  · rw [eB, Nat.shiftRight_eq_div_pow, e3]
    omega
  · intro h32
    rw [hGreenByte]
    have h5 : g >>> 5 = 0 := by
      rw [Nat.shiftRight_eq_div_pow, e5]
      exact Nat.div_eq_of_lt h32
    rw [h5, Nat.or_zero]

/-- Witness for C2 amended at the concrete input bytes 0x1F 0x00, whose
green value 24 lies below 32. -/
theorem C2_roundtrip_amended_witness :
    ((0x03 &&& 0x07) <<< 3) ||| ((0x00 &&& 0xE0) >>> 5) < 32 ∧
      ((rgb565_pixel_to_xrgb8888 0x03 0x00 >>> 8) &&& 0xFF) >>> 2 =
        ((0x03 &&& 0x07) <<< 3) ||| ((0x00 &&& 0xE0) >>> 5) :=
  ⟨by decide,
    (C2_roundtrip_amended 0x03 0x00 (rgb565_pixel_to_xrgb8888 0x03 0x00)
      ((0x03 &&& 0xF8) >>> 3)
      (((0x03 &&& 0x07) <<< 3) ||| ((0x00 &&& 0xE0) >>> 5))
      (0x00 &&& 0x1F) rfl rfl rfl rfl).2.2.2.1 (by decide)⟩

/-- Number of audio channels, audio.rs line 15. -/
def AUDIO_CHANNELS : Nat := 2

/-- Embedding of libretro_set_audio_sample_batch_callback (audio.rs lines
75 to 103). The sample memory is a function from index to value; the
callback copies frames * AUDIO_CHANNELS samples into a fresh buffer and
sends it on the audio channel; send_ok models whether the channel send
succeeds, and a failure is only logged. The returned component is the value
the callback hands back to the core. The buffer pool bookkeeping does not
affect the returned value or the sent samples. -/
def libretro_set_audio_sample_batch_callback (audio_data : Nat → Int)
    (frames : Nat) (send_ok : Bool) : Nat × Option (List Int) :=
  let audio_slice := (List.range (frames * AUDIO_CHANNELS)).map audio_data
  if send_ok then (frames, some audio_slice) else (frames, none)

/-- C9: the audio sample batch callback returns exactly the frame count it
was given, for every samples pointer and frame count, on both the
successful send path and the failed send path. -/
theorem C9_audio_batch_returns_frames (audio_data : Nat → Int) (frames : Nat)
    (send_ok : Bool) :
    (libretro_set_audio_sample_batch_callback audio_data frames send_ok).1 =
      frames := by
  cases send_ok <;> rfl

/-- Embedding of libretro_set_input_state_callback (input.rs lines 165 to
173): look up the id in the pressed buttons vector, with 0 when the index
is out of range. The port, device and index arguments are accepted and
ignored exactly as in the source. -/
def libretro_set_input_state_callback (buttons_pressed : List Int)
    (port device index id : Nat) : Int :=
  (buttons_pressed.get? id).getD 0

/-- C10: the input state callback returns the stored value for ids inside
the pressed buttons vector and 0 for every id at or beyond its length,
never reading out of bounds. -/
theorem C10_input_state_lookup (buttons_pressed : List Int)
    (port device index id : Nat) :
    (id < buttons_pressed.length →
      libretro_set_input_state_callback buttons_pressed port device index id
        = buttons_pressed.getD id 0) ∧
    (buttons_pressed.length ≤ id →
      libretro_set_input_state_callback buttons_pressed port device index id
        = 0) := by
  constructor
  · intro h
    unfold libretro_set_input_state_callback
    rw [List.get?_eq_getElem?, ← List.getD_eq_getElem?_getD]
  · intro h
    unfold libretro_set_input_state_callback
    rw [List.get?_eq_none.mpr h]
    rfl

/-- Witness for C10 with the stored vector [5, 7], the in range id 1 and
the out of range id 9. -/
theorem C10_input_state_lookup_witness :
    ((1 < ([5, 7] : List Int).length) ∧
      libretro_set_input_state_callback [5, 7] 0 0 0 1 =
        ([5, 7] : List Int).getD 1 0) ∧
    ((([5, 7] : List Int).length ≤ 9) ∧
      libretro_set_input_state_callback [5, 7] 0 0 0 9 = 0) :=
  ⟨⟨by decide, (C10_input_state_lookup [5, 7] 0 0 0 1).1 (by decide)⟩,
   ⟨by decide, (C10_input_state_lookup [5, 7] 0 0 0 9).2 (by decide)⟩⟩

/-- Video frame value sent on the video data channel (video.rs lines 36 to
41): the converted pixel buffer together with width, height and pitch. -/
structure VideoData where
  frame_buffer : List Nat
  width : Nat
  height : Nat
  pitch : Nat

/-- Embedding of libretro_set_video_refresh_callback (video.rs lines 17 to
47). A null frame pointer is modelled as none and returns immediately with
nothing sent. Otherwise the callback computes
length_of_frame_buffer = ((pitch as u32) * height) * bpp with wrapping u32
arithmetic (line 28), reads that many bytes from the frame memory, runs the
pixel converter over them regardless of the negotiated format, and the
resulting VideoData value is what gets sent on the video channel. -/
def libretro_set_video_refresh_callback
    (frame_buffer_data : Option (Nat → Nat))
    (width height pitch bpp : Nat) : Option VideoData :=
  match frame_buffer_data with
  | none => none
  | some mem =>
    let length_of_frame_buffer :=
      (pitch % 2 ^ 32) * height % 2 ^ 32 * bpp % 2 ^ 32
    let buffer_slice := (List.range length_of_frame_buffer).map mem
    match convert_pixel_array_from_rgb565_to_xrgb8888 buffer_slice with
    | some result =>
      some { frame_buffer := result, width := width, height := height,
             pitch := pitch }
    | none => none

/-- Sending an optional frame on the video data channel (video.rs lines 43
to 46): append the frame when one was produced. -/
def VIDEO_DATA_CHANNEL_send (channel : List VideoData)
    (vd : Option VideoData) : List VideoData :=
  match vd with
  | some v => channel ++ [v]
  | none => channel

/-- C7: a null frame pointer makes the video refresh callback a no-op: no
VideoData is produced, nothing is sent on the video channel, and the
channel content the presenter reads is unchanged, so the previously
displayed frame is retained. -/
theorem C7_null_frame_is_noop (width height pitch bpp : Nat)
    (channel : List VideoData) :
    libretro_set_video_refresh_callback none width height pitch bpp = none ∧
    VIDEO_DATA_CHANNEL_send channel
      (libretro_set_video_refresh_callback none width height pitch bpp) =
      channel :=
  ⟨rfl, rfl⟩

/-- For a non-null frame the refresh callback produces a frame buffer of
exactly span / 2 values, where span is the wrapping u32 product
((pitch as u32) * height) * bpp computed on line 28 of video.rs. -/
theorem video_refresh_frame_length (mem : Nat → Nat) (w h p bpp n : Nat)
    (hn : (p % 2 ^ 32) * h % 2 ^ 32 * bpp % 2 ^ 32 = n)
    (heven : n % 2 = 0) :
    Option.map (fun vd => vd.frame_buffer.length)
      (libretro_set_video_refresh_callback (some mem) w h p bpp) =
      some (n / 2) := by
  simp only [libretro_set_video_refresh_callback,
    convert_pixel_array_from_rgb565_to_xrgb8888, List.length_map,
    List.length_range, hn]
  rw [if_pos heven]
  simp [List.length_map, List.length_range]

/-- C5 evidence: for a 256 by 144 frame with pitch 512 the callback runs
the converter over (pitch * height) * bpp = 147456 bytes when bpp = 2,
producing 73728 output pixels instead of the 36864 that a span of
pitch * height = 73728 bytes would produce; and with bpp = 4, the 32 bit
case, it still runs the converter (over 294912 bytes, yielding 147456
values) instead of using the buffer as is. -/
theorem C5_span_uses_bpp_and_always_converts :
    Option.map (fun vd => vd.frame_buffer.length)
        (libretro_set_video_refresh_callback (some (fun _ => 0)) 256 144 512
          2) = some ((512 * 144 * 2) / 2) ∧
    (512 * 144 * 2) / 2 ≠ (512 * 144) / 2 ∧
    Option.map (fun vd => vd.frame_buffer.length)
        (libretro_set_video_refresh_callback (some (fun _ => 0)) 256 144 512
          4) = some ((512 * 144 * 4) / 2) := by
  refine ⟨?_, by norm_num, ?_⟩
  · rw [video_refresh_frame_length (fun _ => 0) 256 144 512 2 147456
      (by norm_num) (by norm_num)]
  · rw [video_refresh_frame_length (fun _ => 0) 256 144 512 4 294912
      (by norm_num) (by norm_num)]

/-- Scale computation of render_frame (video.rs lines 108 to 111): integer
ratios of the window size to the frame size, then the minimum of the two,
with no further clamping. -/
def render_scale (source_width source_height window_width window_height :
    Nat) : Nat :=
  let scale_x := window_width / source_width
  let scale_y := window_height / source_height
  min scale_y scale_x

/-- Counterexample to C3: on a 100 by 100 surface a 256 by 144 frame gets
scale 0, so the claimed clamp to a minimum of 1 does not exist in the
code. -/
theorem C3_scale_counterexample :
    render_scale 256 144 100 100 = 0 ∧
      ¬ 1 ≤ render_scale 256 144 100 100 := by decide

/-- C3 amended: the presenter computes scale as the minimum of the two
floor ratios with no minimum clamp, so the scale is 0 whenever the surface
is smaller than the frame in some direction; whenever the frame fits the
surface, the scale is at least 1 and is the largest integer k with
W * k at most Sw and H * k at most Sh; for a 256 by 144 frame on a 1024 by
576 surface the scale is 4. -/
theorem C3_scale_amended (W H Sw Sh : Nat) (hW : 0 < W) (hH : 0 < H) :
    render_scale W H Sw Sh = min (Sw / W) (Sh / H) ∧
    (W ≤ Sw → H ≤ Sh →
      1 ≤ render_scale W H Sw Sh ∧
      W * render_scale W H Sw Sh ≤ Sw ∧
      H * render_scale W H Sw Sh ≤ Sh ∧
      ∀ k, W * k ≤ Sw → H * k ≤ Sh → k ≤ render_scale W H Sw Sh) ∧
    render_scale 256 144 1024 576 = 4 := by
  refine ⟨Nat.min_comm _ _, ?_, by decide⟩
  intro hx hy
  have hsx : render_scale W H Sw Sh ≤ Sw / W := Nat.min_le_right _ _
  have hsy : render_scale W H Sw Sh ≤ Sh / H := Nat.min_le_left _ _
  refine ⟨?_, ?_, ?_, ?_⟩
  · exact Nat.le_min.mpr
      ⟨(Nat.one_le_div_iff hH).mpr hy, (Nat.one_le_div_iff hW).mpr hx⟩
  · calc W * render_scale W H Sw Sh ≤ W * (Sw / W) :=
          Nat.mul_le_mul_left W hsx
      _ ≤ Sw := Nat.mul_div_le Sw W
  · calc H * render_scale W H Sw Sh ≤ H * (Sh / H) :=
          Nat.mul_le_mul_left H hsy
      _ ≤ Sh := Nat.mul_div_le Sh H
  · intro k hk1 hk2
    exact Nat.le_min.mpr
      ⟨(Nat.le_div_iff_mul_le hH).mpr (by rw [Nat.mul_comm]; exact hk2),
       (Nat.le_div_iff_mul_le hW).mpr (by rw [Nat.mul_comm]; exact hk1)⟩

/-- Witness for C3 amended at the concrete geometry of the claim. -/
theorem C3_scale_amended_witness :
    (0 : Nat) < 256 ∧ (0 : Nat) < 144 ∧ render_scale 256 144 1024 576 = 4 :=
  ⟨by decide, by decide,
    (C3_scale_amended 256 144 1024 576 (by decide) (by decide)).2.2⟩

/-- Horizontal centering offset of render_frame (video.rs line 118): the
slack is divided by the loaded bytes per pixel value, not by 2. -/
def render_padding_x (window_width target_width bpp : Nat) : Nat :=
  (window_width - target_width) / bpp

/-- Vertical centering offset of render_frame (video.rs line 119). -/
def render_padding_y (window_height target_height bpp : Nat) : Nat :=
  (window_height - target_height) / bpp

/-- C4 divergence evidence: for a 2 by 2 frame on a 14 by 10 surface the
scale is 5 and the horizontal slack is 4; with 4 bytes per pixel the code
computes padding (14 - 10) / 4 = 1 while centering requires
(14 - 10) / 2 = 2, and the padding changes when only the bytes per pixel
value changes. -/
theorem C4_padding_divided_by_bpp :
    render_scale 2 2 14 10 = 5 ∧
    render_padding_x 14 (2 * render_scale 2 2 14 10) 4 = 1 ∧
    (14 - 2 * render_scale 2 2 14 10) / 2 = 2 ∧
    render_padding_x 14 (2 * render_scale 2 2 14 10) 4 ≠
      render_padding_x 14 (2 * render_scale 2 2 14 10) 2 := by decide

/-- Setting any position to 0 leaves a 0 at that position, also when the
index is out of range and the set is a no-op. -/
theorem getD_set_self_zero (l : List Nat) (i : Nat) :
    (l.set i 0).getD i 0 = 0 := by
  rw [List.getD_eq_getElem?_getD]
  rcases Nat.lt_or_ge i l.length with h | h
  · rw [List.getElem?_set_self h]
    rfl
  · rw [List.getElem?_eq_none (by rw [List.length_set]; exact h)]
    rfl

/-- Setting a different position does not change a lookup with default. -/
theorem getD_set_ne_zero (l : List Nat) (i j v : Nat) (h : i ≠ j) :
    (l.set i v).getD j 0 = l.getD j 0 := by
  rw [List.getD_eq_getElem?_getD, List.getD_eq_getElem?_getD,
    List.getElem?_set_ne h]

/-- Lookup with default in a replicated zero buffer is zero. -/
theorem getD_replicate_zero (n i : Nat) :
    (List.replicate n (0 : Nat)).getD i 0 = 0 := by
  rw [List.getD_eq_getElem?_getD, List.getElem?_replicate]
  split <;> rfl

/-- A predicate preserved by every step of a fold holds of the result. -/
theorem foldl_invariant {α β : Type} (P : β → Prop) (f : β → α → β)
    (l : List α) (b : β) (hb : P b)
    (hf : ∀ acc a, a ∈ l → P acc → P (f acc a)) : P (l.foldl f b) := by
  induction l generalizing b with
  | nil => exact hb
  | cons a t ih =>
    rw [List.foldl_cons]
    exact ih (f b a) (hf b a (List.mem_cons_self a t) hb)
      (fun acc a2 ha2 hacc => hf acc a2 (List.mem_cons_of_mem a ha2) hacc)

/-- Positional uniqueness: a block index and an offset below the block size
determine each other. -/
theorem mul_add_lt_inj {M u du u0 du0 : Nat} (hdu : du < M) (hdu0 : du0 < M)
    (h : u * M + du = u0 * M + du0) : u = u0 ∧ du = du0 := by
  have hM : 0 < M := lt_of_le_of_lt (Nat.zero_le du) hdu
  have e1 : (M * u + du) / M = u + du / M := Nat.mul_add_div hM u du
  have e2 : (M * u0 + du0) / M = u0 + du0 / M := Nat.mul_add_div hM u0 du0
  have hdiv : du / M = 0 := Nat.div_eq_of_lt hdu
  have hdiv0 : du0 / M = 0 := Nat.div_eq_of_lt hdu0
  rw [Nat.mul_comm u M] at h
  rw [Nat.mul_comm u0 M] at h
  have hu : u = u0 := by
    have hq := congrArg (fun t => t / M) h
    simp only [e1, e2, hdiv, hdiv0, Nat.add_zero] at hq
    exact hq
  subst hu
  exact ⟨rfl, Nat.add_left_cancel h⟩

/-- Multiplying a rounded-down quotient keeps it below the rounded-down
product quotient. -/
theorem mul_div_le_mul_div (y p b : Nat) (hb : 0 < b) :
    y * (p / b) ≤ y * p / b := by
  rw [Nat.le_div_iff_mul_le hb]
  calc y * (p / b) * b = y * (p / b * b) := by ring
    _ ≤ y * p := Nat.mul_le_mul_left y (Nat.div_mul_le_self p b)

/-- The scaled frame never exceeds the window in either direction. -/
theorem render_scale_mul_le (W H winW winH : Nat) :
    W * render_scale W H winW winH ≤ winW ∧
    H * render_scale W H winW winH ≤ winH := by
  simp only [render_scale]
  constructor
  · calc W * min (winH / H) (winW / W) ≤ W * (winW / W) :=
        Nat.mul_le_mul_left W (Nat.min_le_right _ _)
      _ ≤ winW := Nat.mul_div_le winW W
  · calc H * min (winH / H) (winW / W) ≤ H * (winH / H) :=
        Nat.mul_le_mul_left H (Nat.min_le_left _ _)
      _ ≤ winH := Nat.mul_div_le winH H

/-- Equal blit destination indices come from equal loop coordinates: the
destination index ((y * S + py) * winW + px) + x * S + dy * winW + dx
determines y, x, dx and dy as long as every column stays inside the
window row. -/
theorem blit_index_eq_cases {S winW px py W : Nat}
    (hpxW : px + W * S ≤ winW)
    {y x dx dy y0 x0 dx0 dy0 : Nat}
    (hx : x < W) (hdx : dx < S) (hdy : dy < S)
    (hx0 : x0 < W) (hdx0 : dx0 < S) (hdy0 : dy0 < S)
    (heq : ((y * S + py) * winW + px) + x * S + dy * winW + dx =
      ((y0 * S + py) * winW + px) + x0 * S + dy0 * winW + dx0) :
    y = y0 ∧ x = x0 ∧ dx = dx0 ∧ dy = dy0 := by
  have hcol : px + x * S + dx < winW := by
    have h2 : (x + 1) * S ≤ W * S := Nat.mul_le_mul_right S hx
    have h1 : x * S + dx < W * S := by
      calc x * S + dx < x * S + S := by omega
        _ = (x + 1) * S := by ring
        _ ≤ W * S := h2
    omega
  have hcol0 : px + x0 * S + dx0 < winW := by
    have h2 : (x0 + 1) * S ≤ W * S := Nat.mul_le_mul_right S hx0
    have h1 : x0 * S + dx0 < W * S := by
      calc x0 * S + dx0 < x0 * S + S := by omega
        _ = (x0 + 1) * S := by ring
        _ ≤ W * S := h2
    omega
  have e1 : ((y * S + py) * winW + px) + x * S + dy * winW + dx =
      (y * S + py + dy) * winW + (px + x * S + dx) := by ring
  have e2 : ((y0 * S + py) * winW + px) + x0 * S + dy0 * winW + dx0 =
      (y0 * S + py + dy0) * winW + (px + x0 * S + dx0) := by ring
  rw [e1, e2] at heq
  obtain ⟨hrow, hcol2⟩ := mul_add_lt_inj hcol hcol0 heq
  have hrow2 : y * S + dy = y0 * S + dy0 := by
    have h3 : (y * S + dy) + py = (y0 * S + dy0) + py := by
      calc (y * S + dy) + py = y * S + py + dy := by ring
        _ = y0 * S + py + dy0 := hrow
        _ = (y0 * S + dy0) + py := by ring
    exact Nat.add_right_cancel h3
  obtain ⟨hyy, hdydy⟩ := mul_add_lt_inj hdy hdy0 hrow2
  have hcol3 : x * S + dx = x0 * S + dx0 := by
    have h4 : px + (x * S + dx) = px + (x0 * S + dx0) := by
      calc px + (x * S + dx) = px + x * S + dx := by ring
        _ = px + x0 * S + dx0 := hcol2
        _ = px + (x0 * S + dx0) := by ring
    exact Nat.add_left_cancel h4
  obtain ⟨hxx, hdxdx⟩ := mul_add_lt_inj hdx hdx0 hcol3
  exact ⟨hyy, hxx, hdxdx, hdydy⟩

/-- The window buffer computation of render_frame (video.rs lines 122 to
145): starting from a zero filled buffer of window_width * window_height
pixels, every source pixel is replicated into a scale by scale block at its
scaled and padded destination; the source read models
frame_buffer.get(source_index).copied().unwrap_or(0) of lines 136 to 140,
and the row start y * pitch / bpp models line 124. -/
def render_window_buffer (vd : VideoData)
    (window_width window_height bpp : Nat) : List Nat :=
  let source_width := vd.width
  let source_height := vd.height
  let pitch := vd.pitch
  let scale :=
    render_scale source_width source_height window_width window_height
  let padding_x := render_padding_x window_width (source_width * scale) bpp
  let padding_y :=
    render_padding_y window_height (source_height * scale) bpp
  (List.range source_height).foldl (fun buf y =>
    let source_start := y * pitch / bpp
    let dest_start := (y * scale + padding_y) * window_width + padding_x
    (List.range source_width).foldl (fun buf x =>
      let dest_index := dest_start + x * scale
      let source_index := source_start + x
      (List.range scale).foldl (fun buf dx =>
        (List.range scale).foldl (fun buf dy =>
          let window_index := dest_index + dy * window_width + dx
          buf.set window_index
            ((vd.frame_buffer.get? source_index).getD 0))
          buf)
        buf)
      buf)
    (List.replicate (window_width * window_height) 0)

/-- The blit always produces a full window surface, for every frame buffer
including truncated ones. -/
theorem render_window_buffer_length (vd : VideoData)
    (window_width window_height bpp : Nat) :
    (render_window_buffer vd window_width window_height bpp).length =
      window_width * window_height := by
  simp only [render_window_buffer]
  apply foldl_invariant (fun (buf : List Nat) => buf.length = window_width * window_height)
  · exact List.length_replicate _ _
  · intro acc y hym hacc
    apply foldl_invariant
      (fun (buf : List Nat) => buf.length = window_width * window_height)
    · exact hacc
    · intro acc2 x hxm hacc2
      apply foldl_invariant
        (fun (buf : List Nat) => buf.length = window_width * window_height)
      · exact hacc2
      · intro acc3 dx hdxm hacc3
        apply foldl_invariant
          (fun (buf : List Nat) => buf.length = window_width * window_height)
        · exact hacc3
        · intro acc4 dy hdym hacc4
          rw [List.length_set]
          exact hacc4

/-- C6: during the blit, every destination cell whose source index
x + y * (pitch / bpp) lies at or beyond the end of the frame buffer is
written with the fixed sentinel value 0 rather than an out of range read,
every written cell index stays inside the window surface, and the produced
surface always has the full window size, for every frame buffer including
ones shorter than width * height * bpp. -/
theorem C6_blit_sentinel_and_bounds (vd : VideoData)
    (window_width window_height bpp : Nat) (hbpp : 0 < bpp) :
    (render_window_buffer vd window_width window_height bpp).length =
      window_width * window_height ∧
    ∀ y x dx dy scale padding_x padding_y : Nat,
      scale = render_scale vd.width vd.height window_width window_height →
      padding_x = render_padding_x window_width (vd.width * scale) bpp →
      padding_y = render_padding_y window_height (vd.height * scale) bpp →
      y < vd.height → x < vd.width → dx < scale → dy < scale →
      ((((y * scale + padding_y) * window_width + padding_x) + x * scale +
        dy * window_width + dx) < window_width * window_height) ∧
      (vd.frame_buffer.length ≤ y * (vd.pitch / bpp) + x →
        (render_window_buffer vd window_width window_height bpp).getD
          (((y * scale + padding_y) * window_width + padding_x) + x * scale +
            dy * window_width + dx) 0 = 0) := by
  refine ⟨render_window_buffer_length vd window_width window_height bpp, ?_⟩
  intro y x dx dy scale padding_x padding_y hs hpx hpy hy hx hdx hdy
  have hmul :=
    render_scale_mul_le vd.width vd.height window_width window_height
  have hWS : vd.width * scale ≤ window_width := by rw [hs]; exact hmul.1
  have hHS : vd.height * scale ≤ window_height := by rw [hs]; exact hmul.2
  have hpxle : padding_x ≤ window_width - vd.width * scale := by
    rw [hpx]
    simp only [render_padding_x]
    exact Nat.div_le_self _ _
  have hpyle : padding_y ≤ window_height - vd.height * scale := by
    rw [hpy]
    simp only [render_padding_y]
    exact Nat.div_le_self _ _
  have hpxW : padding_x + vd.width * scale ≤ window_width := by omega
  have hpyH : padding_y + vd.height * scale ≤ window_height := by omega
  have hxS : x * scale + dx < vd.width * scale := by
    have h2 : (x + 1) * scale ≤ vd.width * scale :=
      Nat.mul_le_mul_right scale hx
    have e : (x + 1) * scale = x * scale + scale := by ring
    omega
  have hyS : y * scale + dy < vd.height * scale := by
    have h2 : (y + 1) * scale ≤ vd.height * scale :=
      Nat.mul_le_mul_right scale hy
    have e : (y + 1) * scale = y * scale + scale := by ring
    omega
  constructor
  · have hrow : y * scale + padding_y + dy < window_height := by omega
    have e : ((y * scale + padding_y) * window_width + padding_x) +
        x * scale + dy * window_width + dx =
        (y * scale + padding_y + dy) * window_width +
          (padding_x + x * scale + dx) := by ring
    rw [e]
    calc (y * scale + padding_y + dy) * window_width +
          (padding_x + x * scale + dx)
        < (y * scale + padding_y + dy) * window_width + window_width := by
          omega
      _ = (y * scale + padding_y + dy + 1) * window_width := by ring
      _ ≤ window_height * window_width :=
          Nat.mul_le_mul_right window_width hrow
      _ = window_width * window_height := Nat.mul_comm _ _
  · intro hsrc
    have hsrc2 : vd.frame_buffer.length ≤ y * vd.pitch / bpp + x := by
      have hmo := mul_div_le_mul_div y vd.pitch bpp hbpp
      omega
    have hnone : vd.frame_buffer.get? (y * vd.pitch / bpp + x) = none :=
      List.get?_eq_none.mpr hsrc2
    simp only [render_window_buffer]
    rw [← hs, ← hpx, ← hpy]
    apply foldl_invariant (fun (buf : List Nat) => List.getD buf
      (((y * scale + padding_y) * window_width + padding_x) + x * scale +
        dy * window_width + dx) 0 = 0)
    · exact getD_replicate_zero _ _
    · intro acc y2 hym hacc
      apply foldl_invariant (fun (buf : List Nat) => List.getD buf
        (((y * scale + padding_y) * window_width + padding_x) + x * scale +
          dy * window_width + dx) 0 = 0)
      · exact hacc
      · intro acc2 x2 hxm hacc2
        apply foldl_invariant (fun (buf : List Nat) => List.getD buf
          (((y * scale + padding_y) * window_width + padding_x) + x * scale +
            dy * window_width + dx) 0 = 0)
        · exact hacc2
        · intro acc3 dx2 hdxm hacc3
          apply foldl_invariant (fun (buf : List Nat) => List.getD buf
            (((y * scale + padding_y) * window_width + padding_x) +
              x * scale + dy * window_width + dx) 0 = 0)
          · exact hacc3
          · intro acc4 dy2 hdym hacc4
            have hy2 := List.mem_range.mp hym
            have hx2 := List.mem_range.mp hxm
            have hdx2 := List.mem_range.mp hdxm
            have hdy2 := List.mem_range.mp hdym
            by_cases hii : (((y2 * scale + padding_y) * window_width +
                padding_x) + x2 * scale + dy2 * window_width + dx2) =
                (((y * scale + padding_y) * window_width + padding_x) +
                  x * scale + dy * window_width + dx)
            · obtain ⟨hy3, hx3, hdx3, hdy3⟩ := blit_index_eq_cases hpxW
                hx2 hdx2 hdy2 hx hdx hdy hii
              rw [hii]
              subst hy3
              subst hx3
              rw [hnone]
              exact getD_set_self_zero acc4 _
            · rw [getD_set_ne_zero _ _ _ _ hii]
              exact hacc4

/-- Witness for C6: a 1 by 1 frame with an empty frame buffer blitted onto
a 2 by 2 window with bpp 2; the scale is 2, both paddings are 0, and the
cell written for the out of range source pixel holds the sentinel 0. -/
theorem C6_blit_sentinel_and_bounds_witness :
    ((render_window_buffer ⟨[], 1, 1, 2⟩ 2 2 2).length = 2 * 2) ∧
    ((((0 * 2 + 0) * 2 + 0) + 0 * 2 + 0 * 2 + 0) < 2 * 2) ∧
    ((render_window_buffer ⟨[], 1, 1, 2⟩ 2 2 2).getD
      (((0 * 2 + 0) * 2 + 0) + 0 * 2 + 0 * 2 + 0) 0 = 0) := by
  have h := C6_blit_sentinel_and_bounds ⟨[], 1, 1, 2⟩ 2 2 2 (by decide)
  have h2 := h.2 0 0 0 0 2 0 0 (by decide) (by decide) (by decide)
    (by decide) (by decide) (by decide) (by decide)
  exact ⟨h.1, h2.1, h2.2 (by decide)⟩
